import Mathlib

/-!
# Verification of `script/animation.py` (nbody particle-trajectory animator)

Shallow embedding of the script's observable behaviour:

* the CSV reader (`csv.reader` on quote-free lines): a blank line yields the
  empty field list, any other line is split on commas;
* Python's `float()` on plain decimal literals, modelled exactly over `ℚ`
  (the script performs no arithmetic on the parsed values, so exact
  rationals are a faithful model of IEEE doubles here: values are only
  parsed, stored, reshaped and compared);
* the loading loop (skip empty rows, drop the first field of each row,
  convert the rest to numbers);
* the NumPy calls the script makes (`np.array` on a list of lists — a
  2-D array when the rows are uniform, a 1-D object array otherwise;
  `np.shape(...)[1]`, which raises `IndexError` on a 1-D shape; Python-2
  integer division by 3; `np.reshape(..., (-1, n, 3))`, which raises
  `ValueError` when the known dimensions multiply to 0 or do not divide
  the total size);
* the animation driver (`FuncAnimation(fig, animate, frames = T-1)` calls
  the callback with each index of `range(T-1)`; the callback with index
  `i` overwrites the scatter offsets with the columns of time step `i`);
* the command-line entry (`len(sys.argv) != 2` prints a usage message and
  returns before any file access).
-/

deriving instance DecidableEq for Except

namespace NBody

/-- A raw CSV field, as the character sequence `csv.reader` hands back. -/
abbrev RawField := List Char

/-- A raw CSV row: the list of fields of one line. -/
abbrev RawRow := List RawField

/-- The reshaped dataset: `dataset[time_step][particle][axis]`. -/
abbrev Dataset := List (List (List ℚ))

/-! ## The CSV reader on one line (quote-free lines) -/

/-- Split a character list on commas, accumulator style: `csv.reader`'s
field splitting for lines that use no quoting. -/
def splitFieldsAux (acc : List Char) : List Char → List (List Char)
  | [] => [acc.reverse]
  | c :: cs =>
    if c = ',' then acc.reverse :: splitFieldsAux [] cs
    else splitFieldsAux (c :: acc) cs

/-- `csv.reader` on one line: a blank line parses to no fields at all;
any other line is split on commas (so a whitespace-only line parses to
one field holding that whitespace). -/
def csvReadLine (line : List Char) : RawRow :=
  if line.isEmpty then [] else splitFieldsAux [] line

/-! ## Python `float()` on plain decimal literals -/

/-- Numeric value of a digit string, most significant digit first. -/
def digitsToNat (ds : List Char) : ℕ :=
  ds.foldl (fun n c => 10 * n + (c.toNat - 48)) 0

/-- Every character is a decimal digit. -/
def allDigits (ds : List Char) : Bool :=
  ds.all (fun c => c.isDigit)

/-- Parse an unsigned decimal literal (`"12"`, `"0.1"`, `".5"`, `"5."`)
into numerator and denominator. Returns `none` on anything else. -/
def parseDecimal (cs : List Char) : Option (ℤ × ℕ) :=
  match List.splitOn '.' cs with
  | [ip] =>
    if !ip.isEmpty && allDigits ip then some ((digitsToNat ip : ℤ), 1)
    else none
  | [ip, fp] =>
    if (!ip.isEmpty || !fp.isEmpty) && allDigits ip && allDigits fp then
      some (((digitsToNat ip * 10 ^ fp.length + digitsToNat fp : ℕ) : ℤ), 10 ^ fp.length)
    else none
  | _ => none

/-- Python's `float()` on a plain (optionally signed) decimal literal,
as an exact rational; `none` models the `ValueError` that `float()`
raises on a malformed field. -/
def parseFloat (cs : List Char) : Option ℚ :=
  match cs with
  | '-' :: rest => (parseDecimal rest).map (fun p => mkRat (-p.1) p.2)
  | '+' :: rest => (parseDecimal rest).map (fun p => mkRat p.1 p.2)
  | _ => (parseDecimal cs).map (fun p => mkRat p.1 p.2)

/-! ## The loading loop and the NumPy steps -/

/-- The runtime errors the script can hit between loading and reshaping. -/
inductive Err : Type
  /-- `ValueError` raised by `float()` on a malformed field. -/
  | valueErrorFloat : Err
  /-- `IndexError` raised by `np.shape(particles)[1]` when the array is
  1-dimensional (ragged input rows, or no rows at all). -/
  | indexErrorShape : Err
  /-- `ValueError` raised by `np.reshape(particles, (-1, n, 3))`. -/
  | valueErrorReshape : Err
deriving DecidableEq, Repr

/-- `map(float, fields)`: convert every field, failing on the first
malformed one. -/
def parseCoords : List RawField → Except Err (List ℚ)
  | [] => .ok []
  | f :: fs =>
    match parseFloat f with
    | none => .error .valueErrorFloat
    | some q =>
      match parseCoords fs with
      | .error e => .error e
      | .ok qs => .ok (q :: qs)

/-- One iteration body of the loading loop on a non-blank row:
`map(float, row[1:])` — the first field (the label) is dropped unread. -/
def rowCoords (row : RawRow) : Except Err (List ℚ) :=
  parseCoords row.tail

/-- The loading loop: skip blank rows (`if not row: continue`), convert
every other row's tail; the resulting table is the `particles` list just
before `np.array`. -/
def loadTable : List RawRow → Except Err (List (List ℚ))
  | [] => .ok []
  | row :: rows =>
    if row.isEmpty then loadTable rows
    else
      match rowCoords row with
      | .error e => .error e
      | .ok qs =>
        match loadTable rows with
        | .error e => .error e
        | .ok rest => .ok (qs :: rest)

/-- The shape `np.array` gives a list of lists: a 2-dimensional
`(rows, width)` array when all rows have equal length (including zero
rows of width 0, shape `(0,)`), a 1-dimensional object array of shape
`(rows,)` otherwise. -/
inductive NpShape : Type
  | one (n : ℕ) : NpShape
  | two (r c : ℕ) : NpShape
deriving DecidableEq, Repr

/-- Shape of `np.array(table)` for a list of numeric rows. -/
def npArrayShape (table : List (List ℚ)) : NpShape :=
  match table with
  | [] => .one 0
  | t :: ts =>
    if ts.all (fun u => u.length = t.length) then .two (ts.length + 1) t.length
    else .one (ts.length + 1)

/-- Cut a list into consecutive chunks of `k` elements (row-major
regrouping); `fuel` bounds the recursion and is instantiated with the
list's length. -/
def chunksAux (k : ℕ) : ℕ → List α → List (List α)
  | _, [] => []
  | 0, _ :: _ => []
  | fuel + 1, x :: xs => (x :: xs).take k :: chunksAux k fuel ((x :: xs).drop k)

/-- Cut a list into consecutive chunks of `k` elements. -/
def chunkList (k : ℕ) (l : List α) : List (List α) :=
  chunksAux k l.length l

/-- `np.reshape(arr, (-1, num, 3))` on a 2-D array flattened row-major to
`flat`: raises `ValueError` when `num * 3 = 0` (the `-1` cannot be
determined) or when `num * 3` does not divide the size; otherwise
regroups the flat data into triples and then into time steps. -/
def npReshape3 (table : List (List ℚ)) (num : ℕ) : Except Err Dataset :=
  if num * 3 = 0 then .error .valueErrorReshape
  else if table.flatten.length % (num * 3) ≠ 0 then .error .valueErrorReshape
  else .ok (chunkList num (chunkList 3 table.flatten))

/-- Lines 20–22 of the script: `np.array`, `num_particles =
np.shape(particles)[1] / 3` (Python-2 floor division; the indexing raises
`IndexError` on a 1-D shape), then the reshape. -/
def runReshape (table : List (List ℚ)) : Except Err Dataset :=
  match npArrayShape table with
  | .one _ => .error .indexErrorShape
  | .two _ c => npReshape3 table (c / 3)

/-- The whole data path of `main` on the rows `csv.reader` produced:
load, then shape-and-reshape. -/
def mainPipeline (rows : List RawRow) : Except Err Dataset :=
  match loadTable rows with
  | .error e => .error e
  | .ok table => runReshape table

/-- The whole data path of `main` on the raw lines of the input file. -/
def mainFromLines (lines : List (List Char)) : Except Err Dataset :=
  mainPipeline (lines.map csvReadLine)

/-! ## The animation driver -/

/-- `particles[i,:,ax]`: one coordinate column of time step `i`. -/
def axisColumn (d : Dataset) (i ax : ℕ) : List ℚ :=
  (d.getD i []).map (fun p => p.getD ax 0)

/-- The triple `(xs, ys, zs)` the callback assigns to
`points._offsets3d` for frame index `i`. -/
def offsets3d (d : Dataset) (i : ℕ) : List ℚ × List ℚ × List ℚ :=
  (axisColumn d i 0, axisColumn d i 1, axisColumn d i 2)

/-- The static initial draw: `ax.scatter(particles[0,:,0],
particles[0,:,1], particles[0,:,2])`. -/
def scatterInit (d : Dataset) : List ℚ × List ℚ × List ℚ :=
  (axisColumn d 0 0, axisColumn d 0 1, axisColumn d 0 2)

/-- `num_frames = np.shape(particles)[0] - 1`. -/
def numFrames (d : Dataset) : ℕ :=
  d.length - 1

/-- The frame indices `FuncAnimation` feeds to the callback:
`range(num_frames)`. -/
def frameIndices (d : Dataset) : List ℕ :=
  List.range (numFrames d)

/-- The sequence of offset triples the callback writes, one per
invocation. -/
def animationUpdates (d : Dataset) : List (List ℚ × List ℚ × List ℚ) :=
  (frameIndices d).map (offsets3d d)

/-! ## The command-line entry -/

/-- What `main` does before touching the data file. `usage` models
"print the usage message and return": no file is opened, no exception is
raised, no exit code is set. `run f` models proceeding to open file `f`
(`sys.argv[1]`). -/
inductive MainAction : Type
  | usage : MainAction
  | run (file : List Char) : MainAction
deriving DecidableEq, Repr

/-- The argument check at the top of `main`: `sys.argv` has the script
name at index 0, so exactly one data-file argument means length 2. -/
def mainEntry (argv : List (List Char)) : MainAction :=
  if argv.length = 2 then .run (argv.getD 1 []) else .usage

/-! ## Lemmas about the embedding -/

/-- Splitting a comma-free character list yields a single field: the
accumulator followed by the rest of the line. -/
theorem splitFieldsAux_no_comma (s : List Char) (hs : ∀ c ∈ s, c ≠ ',') :
    ∀ acc : List Char, splitFieldsAux acc s = [acc.reverse ++ s] := by
  induction s with
  | nil => intro acc; simp [splitFieldsAux]
  | cons c cs ih =>
    intro acc
    have hc : c ≠ ',' := hs c (List.mem_cons_self c cs)
    have ih2 := ih (fun x hx => hs x (List.mem_cons_of_mem c hx)) (c :: acc)
    simp only [splitFieldsAux, if_neg hc, ih2, List.reverse_cons]
    simp

/-- `map(float, fields)` preserves the number of fields when it
succeeds. -/
theorem parseCoords_length {fs : List RawField} {qs : List ℚ}
    (h : parseCoords fs = .ok qs) : qs.length = fs.length := by
  induction fs generalizing qs with
  | nil => simp [parseCoords] at h; simp [← h]
  | cons f fs ih =>
    simp only [parseCoords] at h
    cases hf : parseFloat f with
    | none => rw [hf] at h; exact absurd h (by simp)
    | some q =>
      rw [hf] at h
      cases hr : parseCoords fs with
      | error e => rw [hr] at h; exact absurd h (by simp)
      | ok qs0 =>
        rw [hr] at h
        simp at h
        simp [← h, ih hr]

/-- `map(float, fields)` succeeds when every field parses. -/
theorem parseCoords_ok {fs : List RawField}
    (h : ∀ f ∈ fs, (parseFloat f).isSome) :
    ∃ qs, parseCoords fs = .ok qs := by
  induction fs with
  | nil => exact ⟨[], rfl⟩
  | cons f fs ih =>
    obtain ⟨q, hq⟩ := Option.isSome_iff_exists.mp (h f (List.mem_cons_self f fs))
    obtain ⟨qs, hqs⟩ := ih (fun g hg => h g (List.mem_cons_of_mem f hg))
    exact ⟨q :: qs, by simp [parseCoords, hq, hqs]⟩

/-- The loading loop ignores blank rows entirely: loading the input and
loading its non-blank rows produce the same result. -/
theorem loadTable_filter_blank (rows : List RawRow) :
    loadTable rows = loadTable (rows.filter (fun r => !r.isEmpty)) := by
  induction rows with
  | nil => rfl
  | cons row rows ih =>
    by_cases hb : row.isEmpty
    · simp [loadTable, hb, List.filter_cons, ih]
    · have hb2 : row.isEmpty = false := by simpa using hb
      simp [loadTable, hb2, List.filter_cons, ih]

/-- The loading loop succeeds when every non-blank row's coordinate
fields all parse. -/
theorem loadTable_ok {rows : List RawRow}
    (h : ∀ r ∈ rows, r.isEmpty = false → ∀ f ∈ r.tail, (parseFloat f).isSome) :
    ∃ table, loadTable rows = .ok table := by
  induction rows with
  | nil => exact ⟨[], rfl⟩
  | cons row rows ih =>
    obtain ⟨table, htable⟩ := ih (fun r hr => h r (List.mem_cons_of_mem row hr))
    by_cases hb : row.isEmpty
    · exact ⟨table, by simp [loadTable, hb, htable]⟩
    · have hb2 : row.isEmpty = false := by simpa using hb
      obtain ⟨qs, hqs⟩ :=
        parseCoords_ok (h row (List.mem_cons_self row rows) hb2)
      have hrc : rowCoords row = .ok qs := by simpa [rowCoords] using hqs
      exact ⟨qs :: table, by simp [loadTable, hb2, hrc, htable]⟩

/-- When loading succeeds, the loaded rows correspond one-to-one to the
non-blank input rows, each one field shorter (the dropped label). -/
theorem loadTable_lengths {rows : List RawRow} {table : List (List ℚ)}
    (h : loadTable rows = .ok table) :
    table.map (fun t => t.length + 1) =
      (rows.filter (fun r => !r.isEmpty)).map List.length := by
  induction rows generalizing table with
  | nil =>
    simp [loadTable] at h
    simp [← h]
  | cons row rows ih =>
    by_cases hb : row.isEmpty
    · have hrow : row = [] := List.isEmpty_iff.mp hb
      simp only [loadTable, hb, if_true] at h
      simp [List.filter_cons, hrow, ih h]
    · have hb2 : row.isEmpty = false := by simpa using hb
      simp only [loadTable, hb2, Bool.false_eq_true, if_false] at h
      cases hq : rowCoords row with
      | error e => rw [hq] at h; exact absurd h (by simp)
      | ok qs =>
        rw [hq] at h
        cases ht : loadTable rows with
        | error e => rw [ht] at h; exact absurd h (by simp)
        | ok table0 =>
          rw [ht] at h
          simp at h
          have hrow : row ≠ [] := by simpa [List.isEmpty_iff] using hb
          have hlen : qs.length = row.length - 1 := by
            have := parseCoords_length (show parseCoords row.tail = .ok qs by
              simpa [rowCoords] using hq)
            simpa [List.length_tail] using this
          have hpos : 1 ≤ row.length := by
            cases row with
            | nil => exact absurd rfl hrow
            | cons a l => simp
          simp only [List.filter_cons, hb2, Bool.not_false, if_true]
          simp [← h, List.map_cons, ih ht, hlen, Nat.sub_add_cancel hpos]

/-- Chunking a list of length `k * m` with enough fuel yields `m` chunks
of `k` elements each. -/
theorem chunksAux_spec {α : Type _} {k : ℕ} (hk : 0 < k) :
    ∀ (fuel : ℕ) (m : ℕ) (l : List α), l.length ≤ fuel → l.length = k * m →
      (chunksAux k fuel l).length = m ∧ ∀ c ∈ chunksAux k fuel l, c.length = k := by
  intro fuel
  induction fuel with
  | zero =>
    intro m l hle hlen
    have hnil : l = [] := List.eq_nil_of_length_eq_zero (Nat.le_zero.mp hle)
    subst hnil
    have hm : m = 0 := by
      rcases Nat.mul_eq_zero.mp hlen.symm with h | h
      · omega
      · exact h
    subst hm
    exact ⟨rfl, by intro c hc; simp [chunksAux] at hc⟩
  | succ fuel ih =>
    intro m l hle hlen
    cases l with
    | nil =>
      have hm : m = 0 := by
        have : 0 = k * m := hlen
        rcases Nat.mul_eq_zero.mp this.symm with h | h
        · omega
        · exact h
      subst hm
      exact ⟨rfl, by intro c hc; simp [chunksAux] at hc⟩
    | cons x xs =>
      have hmpos : 0 < m := by
        rcases Nat.eq_zero_or_pos m with hm | hm
        · subst hm; rw [Nat.mul_zero] at hlen; simp at hlen
        · exact hm
      obtain ⟨m1, rfl⟩ : ∃ m1, m = m1 + 1 := ⟨m - 1, by omega⟩
      have hlen2 : xs.length + 1 = k * m1 + k := by
        have h2 : (x :: xs).length = k * (m1 + 1) := hlen
        rw [Nat.mul_succ] at h2
        simpa using h2
      have hfle : xs.length + 1 ≤ fuel + 1 := by simpa using hle
      have htake : ((x :: xs).take k).length = k := by
        simp only [List.length_take, List.length_cons]
        omega
      have hdroplen : ((x :: xs).drop k).length = k * m1 := by
        simp only [List.length_drop, List.length_cons]
        omega
      have hdropfuel : ((x :: xs).drop k).length ≤ fuel := by
        rw [hdroplen]
        omega
      obtain ⟨ihlen, ihmem⟩ := ih m1 ((x :: xs).drop k) hdropfuel hdroplen
      constructor
      · simp [chunksAux, ihlen]
      · intro c hc
        simp only [chunksAux, List.mem_cons] at hc
        rcases hc with rfl | hc
        · exact htake
        · exact ihmem c hc

/-- Chunking a list of length `k * m` yields `m` chunks of `k` elements
each. -/
theorem chunkList_spec {α : Type _} {k m : ℕ} {l : List α} (hk : 0 < k)
    (hlen : l.length = k * m) :
    (chunkList k l).length = m ∧ ∀ c ∈ chunkList k l, c.length = k :=
  chunksAux_spec hk l.length m l (Nat.le_refl _) hlen

/-- Every element of every chunk comes from the original list. -/
theorem chunksAux_mem {α : Type _} {k : ℕ} :
    ∀ (fuel : ℕ) (l : List α) (c : List α), c ∈ chunksAux k fuel l →
      ∀ x ∈ c, x ∈ l := by
  intro fuel
  induction fuel with
  | zero =>
    intro l c hc
    cases l with
    | nil => simp [chunksAux] at hc
    | cons y ys => simp [chunksAux] at hc
  | succ fuel ih =>
    intro l c hc x hx
    cases l with
    | nil => simp [chunksAux] at hc
    | cons y ys =>
      simp only [chunksAux, List.mem_cons] at hc
      rcases hc with rfl | hc
      · exact List.take_subset _ _ hx
      · exact List.drop_subset _ _ (ih _ c hc x hx)

/-- Every element of every chunk comes from the original list. -/
theorem chunkList_mem {α : Type _} {k : ℕ} {l c : List α}
    (hc : c ∈ chunkList k l) : ∀ x ∈ c, x ∈ l :=
  chunksAux_mem l.length l c hc

/-- Flattening a table whose rows all have length `C` gives
`rows * C` entries. -/
theorem flatten_length_uniform {table : List (List ℚ)} {C : ℕ}
    (h : ∀ t ∈ table, t.length = C) :
    table.flatten.length = table.length * C := by
  induction table with
  | nil => simp
  | cons t ts ih =>
    have ht : t.length = C := h t (List.mem_cons_self t ts)
    have hts := ih (fun u hu => h u (List.mem_cons_of_mem t hu))
    simp [List.flatten_cons, ht, hts, Nat.succ_mul, Nat.add_comm]

/-- On a non-empty uniform table, `np.array` produces a 2-D array of
shape `(rows, width)`. -/
theorem npArrayShape_uniform {table : List (List ℚ)} {C : ℕ}
    (hne : table ≠ []) (h : ∀ t ∈ table, t.length = C) :
    npArrayShape table = .two table.length C := by
  cases table with
  | nil => exact absurd rfl hne
  | cons t ts =>
    have ht : t.length = C := h t (List.mem_cons_self t ts)
    have hall : ts.all (fun u => u.length = t.length) = true := by
      simp only [List.all_eq_true, decide_eq_true_eq]
      intro u hu
      rw [h u (List.mem_cons_of_mem t hu), ht]
    simp only [npArrayShape]
    rw [if_pos hall]
    simp [ht]

/-- The whole data path on a rectangular input: `R ≥ 1` non-blank rows,
each a label plus the same number `C` of parseable coordinate fields,
with `C` a positive multiple of 3, loads and reshapes without error into
a dataset of shape `(R, C / 3, 3)`. -/
theorem mainPipeline_rect {rows : List RawRow} {C : ℕ}
    (hw : ∀ r ∈ rows, r.isEmpty = false → r.length = C + 1)
    (hp : ∀ r ∈ rows, r.isEmpty = false → ∀ f ∈ r.tail, (parseFloat f).isSome)
    (h3 : C % 3 = 0) (hC : 0 < C)
    (hR : 0 < (rows.filter (fun r => !r.isEmpty)).length) :
    ∃ d, mainPipeline rows = .ok d ∧
      d.length = (rows.filter (fun r => !r.isEmpty)).length ∧
      ∀ t ∈ d, t.length = C / 3 ∧ ∀ p ∈ t, p.length = 3 := by
  obtain ⟨table, hT⟩ := loadTable_ok hp
  have hmap := loadTable_lengths hT
  have htlen : ∀ t ∈ table, t.length = C := by
    intro t ht
    have h1 : t.length + 1 ∈ table.map (fun t => t.length + 1) :=
      List.mem_map_of_mem _ ht
    rw [hmap] at h1
    obtain ⟨r, hr, hrlen⟩ := List.mem_map.mp h1
    have hrn : r.isEmpty = false := by
      simpa using (List.mem_filter.mp hr).2
    have hrC := hw r (List.mem_filter.mp hr).1 hrn
    omega
  have hTlen : table.length = (rows.filter (fun r => !r.isEmpty)).length := by
    have := congrArg List.length hmap
    simpa using this
  have hTne : table ≠ [] := by
    intro h0
    rw [h0] at hTlen
    simp at hTlen
    omega
  have hshape := npArrayShape_uniform hTne htlen
  have h3dvd : 3 ∣ C := Nat.dvd_of_mod_eq_zero h3
  obtain ⟨m, rfl⟩ := h3dvd
  have hdiv : 3 * m / 3 = m := Nat.mul_div_cancel_left m (by omega)
  have hmpos : 0 < m := by omega
  have hflat : table.flatten.length = table.length * (3 * m) :=
    flatten_length_uniform htlen
  have hkne : ¬(3 * m / 3 * 3 = 0) := by
    rw [hdiv]
    omega
  have hmod : table.flatten.length % (3 * m / 3 * 3) = 0 := by
    rw [hdiv, hflat, show table.length * (3 * m) = table.length * (m * 3) by ring]
    exact Nat.mul_mod_left _ _
  obtain ⟨hlen3, hmem3⟩ := chunkList_spec (show (0:ℕ) < 3 by omega)
    (show table.flatten.length = 3 * (table.length * m) by rw [hflat]; ring)
  obtain ⟨hlenN, hmemN⟩ := chunkList_spec
    (show 0 < 3 * m / 3 by rw [hdiv]; omega)
    (show (chunkList 3 table.flatten).length = 3 * m / 3 * table.length by
      rw [hlen3, hdiv]; ring)
  refine ⟨chunkList (3 * m / 3) (chunkList 3 table.flatten), ?_, ?_, ?_⟩
  · simp only [mainPipeline, hT, runReshape, hshape, npReshape3]
    rw [if_neg hkne, if_neg (not_not_intro hmod)]
  · rw [hlenN, hTlen]
  · intro t ht
    refine ⟨hmemN t ht, ?_⟩
    intro p hp2
    exact hmem3 p (chunkList_mem ht p hp2)

/-- The whole data path on a ragged input whose coordinate fields all
parse: two non-blank rows of different widths make `np.array` build a
1-D object array, and `np.shape(particles)[1]` raises `IndexError`.
The loading loop itself succeeds: no data is silently truncated. -/
theorem mainPipeline_ragged {rows : List RawRow}
    (hp : ∀ r ∈ rows, r.isEmpty = false → ∀ f ∈ r.tail, (parseFloat f).isSome)
    {r1 r2 : RawRow}
    (h1 : r1 ∈ rows.filter (fun r => !r.isEmpty))
    (h2 : r2 ∈ rows.filter (fun r => !r.isEmpty))
    (hne : r1.length ≠ r2.length) :
    mainPipeline rows = .error .indexErrorShape := by
  obtain ⟨table, hT⟩ := loadTable_ok hp
  have hmap := loadTable_lengths hT
  have e1 : r1.length ∈ (rows.filter (fun r => !r.isEmpty)).map List.length :=
    List.mem_map_of_mem _ h1
  have e2 : r2.length ∈ (rows.filter (fun r => !r.isEmpty)).map List.length :=
    List.mem_map_of_mem _ h2
  rw [← hmap] at e1 e2
  obtain ⟨t1, ht1, ht1len⟩ := List.mem_map.mp e1
  obtain ⟨t2, ht2, ht2len⟩ := List.mem_map.mp e2
  cases htab : table with
  | nil =>
    rw [htab] at ht1
    simp at ht1
  | cons t ts =>
    have hcond : ¬(ts.all (fun u => u.length = t.length) = true) := by
      intro hall
      have huniv : ∀ u ∈ t :: ts, u.length = t.length := by
        intro u hu
        rcases List.mem_cons.mp hu with rfl | hu
        · rfl
        · simpa using List.all_eq_true.mp hall u hu
      rw [htab] at ht1 ht2
      have k1 := huniv t1 ht1
      have k2 := huniv t2 ht2
      exact hne (by omega)
    have hshape : npArrayShape table = .one (ts.length + 1) := by
      rw [htab]
      simp only [npArrayShape]
      rw [if_neg hcond]
    simp [mainPipeline, hT, runReshape, hshape]

/-- Loading an input of blank rows only yields the empty table. -/
theorem loadTable_all_blank :
    ∀ rows : List RawRow, (∀ r ∈ rows, r = []) → loadTable rows = .ok [] := by
  intro rows
  induction rows with
  | nil => intro _; rfl
  | cons r rs ih =>
    intro h
    have hr : r = [] := h r (List.mem_cons_self r rs)
    subst hr
    simpa [loadTable] using ih (fun x hx => h x (List.mem_cons_of_mem _ hx))

/-- `getD` on a mapped range evaluates the function. -/
theorem getD_map_range {β : Type _} (f : ℕ → β) {n i : ℕ} (dflt : β)
    (h : i < n) : ((List.range n).map f).getD i dflt = f i := by
  rw [List.getD_eq_getElem?_getD, List.getElem?_map, List.getElem?_range h]
  rfl

/-! ## The claims -/

/-- C1 fails as stated: the counterexamples the universal claim admits
are a single label-only row (`R = 1` rows, `C = 0` coordinate columns —
`0` is divisible by 3 — where the reshape raises `ValueError` instead of
producing a `(1, 0, 3)` dataset) and the empty input (`R = 0`, where
`np.shape(...)[1]` raises `IndexError` instead of producing a
`(0, C/3, 3)` dataset). -/
theorem claim1_counterexample :
    (mainPipeline [["p1".toList]] = .error .valueErrorReshape ∧
      (([["p1".toList]] : List RawRow).filter (fun r => !r.isEmpty)).length = 1 ∧
      (∀ r ∈ ([["p1".toList]] : List RawRow), r.isEmpty = false → r.length = 0 + 1) ∧
      0 % 3 = 0) ∧
    mainPipeline ([] : List RawRow) = .error .indexErrorShape := by
  exact ⟨⟨by decide, by decide, by decide, rfl⟩, rfl⟩

/-- C1 (amended): for every CSV input with `R ≥ 1` non-blank rows, each
having the same positive number `C` of coordinate columns (all parsing
as floats) with `C` divisible by 3, the loader produces a dataset of
shape `(R, C/3, 3)`. -/
theorem claim1_dataset_shape {rows : List RawRow} {C R : ℕ}
    (hR : (rows.filter (fun r => !r.isEmpty)).length = R)
    (hw : ∀ r ∈ rows, r.isEmpty = false → r.length = C + 1)
    (hp : ∀ r ∈ rows, r.isEmpty = false → ∀ f ∈ r.tail, (parseFloat f).isSome)
    (h3 : C % 3 = 0) (hC : 0 < C) (hR1 : 0 < R) :
    ∃ d, mainPipeline rows = .ok d ∧ d.length = R ∧
      ∀ t ∈ d, t.length = C / 3 ∧ ∀ p ∈ t, p.length = 3 := by
  subst hR
  exact mainPipeline_rect hw hp h3 hC hR1

/-- C1 witness: one row, label plus three coordinates, gives a
`(1, 1, 3)` dataset. -/
theorem claim1_witness :
    ∃ d, mainPipeline [["t".toList, "1".toList, "2".toList, "3".toList]] = .ok d ∧
      d.length = 1 ∧ ∀ t ∈ d, t.length = 3 / 3 ∧ ∀ p ∈ t, p.length = 3 :=
  @claim1_dataset_shape [["t".toList, "1".toList, "2".toList, "3".toList]] 3 1
    (by decide) (by decide) (by decide) (by decide) (by decide) (by decide)

/-- C2: on the two spec rows the loader produces exactly the
`(2, 2, 3)` dataset `[[[0.1,0.2,0.3],[0.4,0.5,0.6]],
[[0.2,0.3,0.4],[0.5,0.6,0.7]]]`. -/
theorem claim2_concrete_dataset :
    mainFromLines
        ["p1,0.1,0.2,0.3,0.4,0.5,0.6".toList, "p2,0.2,0.3,0.4,0.5,0.6,0.7".toList] =
      .ok [[[0.1, 0.2, 0.3], [0.4, 0.5, 0.6]], [[0.2, 0.3, 0.4], [0.5, 0.6, 0.7]]] := by
  have h : mainFromLines
      ["p1,0.1,0.2,0.3,0.4,0.5,0.6".toList, "p2,0.2,0.3,0.4,0.5,0.6,0.7".toList] =
      .ok [[[mkRat 1 10, mkRat 2 10, mkRat 3 10], [mkRat 4 10, mkRat 5 10, mkRat 6 10]],
           [[mkRat 2 10, mkRat 3 10, mkRat 4 10], [mkRat 5 10, mkRat 6 10, mkRat 7 10]]] := by
    decide
  rw [h]
  norm_num [Rat.mkRat_eq_div]

/-- C3 fails as stated: an input whose non-blank rows have inconsistent
widths but whose second row starts with a malformed numeric field raises
its error inside the loading loop (`float()`'s `ValueError`), not at the
reshape step. -/
theorem claim3_counterexample :
    mainPipeline [["p".toList, "x".toList], ["p".toList, "1".toList, "2".toList]] =
      .error .valueErrorFloat ∧
    mainPipeline [["p".toList, "x".toList], ["p".toList, "1".toList, "2".toList]] ≠
      .error .indexErrorShape ∧
    mainPipeline [["p".toList, "x".toList], ["p".toList, "1".toList, "2".toList]] ≠
      .error .valueErrorReshape ∧
    (["p".toList, "x".toList] : RawRow).length ≠
      (["p".toList, "1".toList, "2".toList] : RawRow).length := by
  decide

/-- C3 (amended): for every CSV input whose non-blank rows have
inconsistent widths and whose coordinate fields all parse, the program
raises an error at the reshape step — the `IndexError` from indexing a
1-dimensional shape — rather than silently truncating data. -/
theorem claim3_ragged_raises {rows : List RawRow}
    (hp : ∀ r ∈ rows, r.isEmpty = false → ∀ f ∈ r.tail, (parseFloat f).isSome)
    {r1 r2 : RawRow}
    (h1 : r1 ∈ rows.filter (fun r => !r.isEmpty))
    (h2 : r2 ∈ rows.filter (fun r => !r.isEmpty))
    (hne : r1.length ≠ r2.length) :
    mainPipeline rows = .error .indexErrorShape :=
  mainPipeline_ragged hp h1 h2 hne

/-- C3 witness: two parseable rows of widths 2 and 3. -/
theorem claim3_witness :
    mainPipeline [["a".toList, "1".toList], ["b".toList, "1".toList, "2".toList]] =
      .error .indexErrorShape :=
  @claim3_ragged_raises
    [["a".toList, "1".toList], ["b".toList, "1".toList, "2".toList]]
    (by decide) ["a".toList, "1".toList] ["b".toList, "1".toList, "2".toList]
    (by decide) (by decide) (by decide)

/-- C4 fails as stated: on a 2-time-step dataset the single callback
invocation has frame index 0 and redraws time step 0; no invocation
covers time step 1, so the callbacks do not cover each time step after
the first. -/
theorem claim4_counterexample :
    mainFromLines ["a,1,2,3".toList, "b,4,5,6".toList] =
      .ok ([[[1, 2, 3]], [[4, 5, 6]]] : Dataset) ∧
    numFrames ([[[1, 2, 3]], [[4, 5, 6]]] : Dataset) = 1 ∧
    frameIndices ([[[1, 2, 3]], [[4, 5, 6]]] : Dataset) = [0] ∧
    (1 : ℕ) ∉ frameIndices ([[[1, 2, 3]], [[4, 5, 6]]] : Dataset) ∧
    offsets3d ([[[1, 2, 3]], [[4, 5, 6]]] : Dataset) 0 ≠
      offsets3d ([[[1, 2, 3]], [[4, 5, 6]]] : Dataset) 1 := by
  decide

/-- C4 (amended): for every loaded dataset with `T` time steps the
animation performs exactly `T − 1` callback invocations, at frame
indices `0 … T − 2`; the first frame is the static initial draw of time
step 0, each invocation with index `i` overwrites the scatter offsets
with the coordinates at time step `i`, so the callbacks cover each time
step except the last, and the last time step is never drawn. -/
theorem claim4_frame_schedule {rows : List RawRow} {d : Dataset}
    (_hio : mainPipeline rows = .ok d) :
    (animationUpdates d).length = d.length - 1 ∧
    frameIndices d = List.range (d.length - 1) ∧
    (∀ i, i < d.length - 1 →
      (animationUpdates d).getD i ([], [], []) = offsets3d d i) ∧
    scatterInit d = offsets3d d 0 ∧
    d.length - 1 ∉ frameIndices d := by
  refine ⟨?_, rfl, ?_, rfl, ?_⟩
  · simp [animationUpdates, frameIndices, numFrames]
  · intro i hi
    exact getD_map_range (offsets3d d) ([], [], []) hi
  · simp [frameIndices, numFrames, List.mem_range]

/-- C4 witness: the 2-time-step dataset loaded from two concrete rows. -/
theorem claim4_witness :
    (animationUpdates ([[[1, 2, 3]], [[4, 5, 6]]] : Dataset)).length =
      ([[[1, 2, 3]], [[4, 5, 6]]] : Dataset).length - 1 ∧
    frameIndices ([[[1, 2, 3]], [[4, 5, 6]]] : Dataset) =
      List.range (([[[1, 2, 3]], [[4, 5, 6]]] : Dataset).length - 1) ∧
    (∀ i, i < ([[[1, 2, 3]], [[4, 5, 6]]] : Dataset).length - 1 →
      (animationUpdates ([[[1, 2, 3]], [[4, 5, 6]]] : Dataset)).getD i ([], [], []) =
        offsets3d ([[[1, 2, 3]], [[4, 5, 6]]] : Dataset) i) ∧
    scatterInit ([[[1, 2, 3]], [[4, 5, 6]]] : Dataset) =
      offsets3d ([[[1, 2, 3]], [[4, 5, 6]]] : Dataset) 0 ∧
    ([[[1, 2, 3]], [[4, 5, 6]]] : Dataset).length - 1 ∉
      frameIndices ([[[1, 2, 3]], [[4, 5, 6]]] : Dataset) :=
  @claim4_frame_schedule [csvReadLine "a,1,2,3".toList, csvReadLine "b,4,5,6".toList]
    ([[[1, 2, 3]], [[4, 5, 6]]] : Dataset) (by decide)

/-- C5: with any argument count other than exactly one data-file
argument (`sys.argv` length other than 2), `main` prints the usage
message and returns — the `usage` action, which opens no file and sets
no exit code. -/
theorem claim5_usage {argv : List (List Char)} (h : argv.length ≠ 2) :
    mainEntry argv = .usage := by
  simp [mainEntry, h]

/-- C5 witness: invocation with the script name alone. -/
theorem claim5_witness : mainEntry ["animation.py".toList] = .usage :=
  @claim5_usage ["animation.py".toList] (by decide)

/-- C6 fails as stated: its final clause — the dataset's time-step count
equals the number of non-blank rows — is violated by a rectangular input
of 6 non-blank rows with 7 coordinate columns, which reshapes without
error into 7 time steps. -/
theorem claim6_counterexample :
    (mainFromLines (List.replicate 6 "p,1,2,3,4,5,6,7".toList)).map List.length =
      .ok 7 ∧
    (((List.replicate 6 "p,1,2,3,4,5,6,7".toList).map csvReadLine).filter
      (fun r => !r.isEmpty)).length = 6 ∧
    (7 : ℕ) ≠ 6 := by
  decide

/-- C6 (amended): blank rows are skipped by the loader and contribute no
row to the loaded table, and when the non-blank rows share a positive
coordinate width divisible by 3 the dataset's time-step count equals the
number of non-blank rows. -/
theorem claim6_blank_rows_skipped {rows : List RawRow} {C : ℕ}
    (hw : ∀ r ∈ rows, r.isEmpty = false → r.length = C + 1)
    (hp : ∀ r ∈ rows, r.isEmpty = false → ∀ f ∈ r.tail, (parseFloat f).isSome)
    (h3 : C % 3 = 0) (hC : 0 < C)
    (hR : 0 < (rows.filter (fun r => !r.isEmpty)).length) :
    loadTable rows = loadTable (rows.filter (fun r => !r.isEmpty)) ∧
    ∃ d, mainPipeline rows = .ok d ∧
      d.length = (rows.filter (fun r => !r.isEmpty)).length := by
  refine ⟨loadTable_filter_blank rows, ?_⟩
  obtain ⟨d, h1, h2, _⟩ := mainPipeline_rect hw hp h3 hC hR
  exact ⟨d, h1, h2⟩

/-- C6 witness: a blank row between and around one data row. -/
theorem claim6_witness :
    loadTable [[], ["t".toList, "1".toList, "2".toList, "3".toList], []] =
      loadTable (([[], ["t".toList, "1".toList, "2".toList, "3".toList], []] :
        List RawRow).filter (fun r => !r.isEmpty)) ∧
    ∃ d, mainPipeline [[], ["t".toList, "1".toList, "2".toList, "3".toList], []] =
        .ok d ∧
      d.length = (([[], ["t".toList, "1".toList, "2".toList, "3".toList], []] :
        List RawRow).filter (fun r => !r.isEmpty)).length :=
  @claim6_blank_rows_skipped
    [[], ["t".toList, "1".toList, "2".toList, "3".toList], []] 3
    (by decide) (by decide) (by decide) (by decide) (by decide)

/-- C7: the first field of every non-blank row is dropped unread — the
row's coordinates do not depend on it, they are exactly the parsed tail,
and replacing any row's first field leaves the loaded table unchanged. -/
theorem claim7_label_ignored :
    (∀ (a b : RawField) (rest : List RawField),
      rowCoords (a :: rest) = rowCoords (b :: rest)) ∧
    (∀ (a : RawField) (rest : List RawField),
      rowCoords (a :: rest) = parseCoords rest) ∧
    (∀ (pre post : List RawRow) (a b : RawField) (rest : List RawField),
      loadTable (pre ++ (a :: rest) :: post) =
        loadTable (pre ++ (b :: rest) :: post)) := by
  refine ⟨fun a b rest => rfl, fun a rest => rfl, ?_⟩
  intro pre post a b rest
  induction pre with
  | nil => simp [loadTable, rowCoords]
  | cons r rs ih =>
    by_cases hb : r.isEmpty
    · simp [loadTable, hb, ih]
    · have hb2 : r.isEmpty = false := by simpa using hb
      cases hq : rowCoords r with
      | error e => simp [loadTable, hb2, hq]
      | ok qs => simp [loadTable, hb2, hq, ih]

/-- C8: the rectangular input of 6 rows with 7 coordinate columns
raises no error: the particle count is `7 / 3 = 2` (floor division),
the reshape succeeds because `6 × 7 = 42` is divisible by `2 × 3 = 6`,
the time-step dimension becomes `42 / 6 = 7 ≠ 6`, and the second "time
step" mixes coordinates of the first and second input rows. -/
theorem claim8_silent_scramble :
    (mainFromLines (List.replicate 6 "p,1,2,3,4,5,6,7".toList)).map List.length =
      .ok 7 ∧
    (∀ r ∈ (List.replicate 6 "p,1,2,3,4,5,6,7".toList).map csvReadLine,
      r.length = 8) ∧
    (((List.replicate 6 "p,1,2,3,4,5,6,7".toList).map csvReadLine).filter
      (fun r => !r.isEmpty)).length = 6 ∧
    (mainFromLines (List.replicate 6 "p,1,2,3,4,5,6,7".toList)).map
      (fun d => d.map List.length) = .ok (List.replicate 7 2) ∧
    (mainFromLines (List.replicate 6 "p,1,2,3,4,5,6,7".toList)).map
      (fun d => d.getD 1 []) = .ok [[(7 : ℚ), 1, 2], [3, 4, 5]] := by
  decide

/-- C9: an input with no non-blank rows loads to an empty array of
shape `(0,)`, and `np.shape(particles)[1]` raises `IndexError` before
any reshape is attempted or any plot is created. -/
theorem claim9_empty_input {rows : List RawRow} (h : ∀ r ∈ rows, r = []) :
    mainPipeline rows = .error .indexErrorShape := by
  simp [mainPipeline, loadTable_all_blank rows h, runReshape, npArrayShape]

/-- C9 witness: a file of two blank lines. -/
theorem claim9_witness :
    mainPipeline [[], []] = .error .indexErrorShape :=
  @claim9_empty_input [[], []] (by decide)

/-- C10: a non-empty line of whitespace is parsed by the CSV reader to
exactly one field (only the empty line parses to zero fields and is
skipped as blank), that field is dropped as the label, and the row
contributes one time step with zero coordinates — it is neither skipped
nor rejected. -/
theorem claim10_whitespace_row {s : List Char} (hne : s ≠ [])
    (hws : ∀ c ∈ s, c.isWhitespace) :
    csvReadLine s = [s] ∧ csvReadLine s ≠ [] ∧
    loadTable [csvReadLine s] = .ok [[]] ∧ csvReadLine [] = [] := by
  have hnc : ∀ c ∈ s, c ≠ ',' := by
    intro c hc heq
    subst heq
    exact absurd (hws _ hc) (by decide)
  have hie : s.isEmpty = false := by
    cases s with
    | nil => exact absurd rfl hne
    | cons a l => rfl
  have hsplit : csvReadLine s = [s] := by
    simp only [csvReadLine, hie, Bool.false_eq_true, if_false]
    simpa using splitFieldsAux_no_comma s hnc []
  refine ⟨hsplit, by simp [hsplit], ?_, rfl⟩
  rw [hsplit]
  rfl

/-- C10 witness: the single-space line. -/
theorem claim10_witness :
    csvReadLine [' '] = [[' ']] ∧ csvReadLine [' '] ≠ [] ∧
    loadTable [csvReadLine [' ']] = .ok [[]] ∧ csvReadLine [] = [] :=
  @claim10_whitespace_row [' '] (by decide) (by decide)

end NBody
